import Mathlib

/-!
Verification of `cmd/pubsub_test/cmd/files.go` (guac pubsub pipeline command).

The pure logic of the command — flag validation, the collector emit closure,
the processor and ingestor transport closures, graph-fragment merging, index
bootstrap, and the goroutine join barrier — is embedded as executable Lean
definitions.  External collaborators (the NATS bus, the graph database client,
JSON marshalling, the collector driver) are passed in as explicit function
parameters or, where their behaviour decides a property, modelled from the
design document.  Go `error` values are rendered as `Except String` /
`Option String`, byte slices as `List Nat`.
-/

set_option maxHeartbeats 1000000

namespace GuacFiles

/-! ## Data model -/

/-- Modelled from the spec: nodes carry a label (entity type) and key/value
attributes; the concrete `assembler.GuacNode` interface lives outside this file. -/
structure GuacNode where
  label : String
  attrs : List (String × String)
deriving DecidableEq

/-- Modelled from the spec: edges carry a label and key/value attributes; the
concrete `assembler.GuacEdge` interface lives outside this file. -/
structure GuacEdge where
  label : String
  attrs : List (String × String)
deriving DecidableEq

/-- The `assembler.Graph` fragment: ordered node and edge collections. -/
structure Graph where
  Nodes : List GuacNode
  Edges : List GuacEdge
deriving DecidableEq

/-- Modelled from the spec: a Document is a raw byte payload plus source
metadata; `processor.Document` itself lives outside this file. -/
structure Document where
  blob : List Nat
  sourcePath : String
deriving DecidableEq

/-- Modelled from the spec: a DocumentTree is the structured form of one
Document; its internal shape is out of scope here, so it is kept as a
wrapper around its root document. -/
structure DocumentTree where
  root : Document
deriving DecidableEq

/-- The `options` struct of `files.go:51-62`.  Go zero values are empty
strings. -/
structure Options where
  dbAddr : String
  user : String
  pass : String
  realm : String
  keyPath : String
  keyID : String
  path : String
deriving DecidableEq

/-! ## Flag validation (`validateFlags`, `files.go:201-226`) -/

/-- Embedding of `strings.HasSuffix` on character sequences. -/
def hasSuffix (s suf : String) : Bool :=
  suf.data.isSuffixOf s.data

/-- Mirror of the tail of `validateFlags` (`files.go:215-225`): copy `keyID`
into the options when a key path was given, then require exactly one
positional argument and record it as the collection path. -/
def validateFlagsRest (opts : Options) (keyPath keyID : String)
    (args : List String) : Except String Options :=
  let opts := if keyPath ≠ "" then { opts with keyID := keyID } else opts
  if args.length ≠ 1 then
    .error "expected positional argument for file_path"
  else
    .ok { opts with path := args.headD "" }

/-- Embedding of `validateFlags` (`files.go:201-226`).  Note the source tests
`strings.HasSuffix(keyPath, "pem")` — the bare suffix `"pem"`, not `".pem"`. -/
def validateFlags (user pass dbAddr realm keyPath keyID : String)
    (args : List String) : Except String Options :=
  let opts : Options :=
    { user := user, pass := pass, dbAddr := dbAddr, realm := realm,
      keyPath := "", keyID := "", path := "" }
  if keyPath ≠ "" then
    if hasSuffix keyPath "pem" then
      validateFlagsRest { opts with keyPath := keyPath } keyPath keyID args
    else
      .error "key must be passed in as a pem file"
  else
    validateFlagsRest opts keyPath keyID args

/-! ## Collector termination handler (`errHandler`, `files.go:164-171`) -/

/-- Embedding of the `errHandler` closure (`files.go:164-171`): report a
graceful stop exactly when the terminal error is absent. -/
def errHandler (err : Option String) : Bool :=
  match err with
  | none => true
  | some _ => false

/-! ## Theorems: flag validation -/

/-- C2 counterexample: the key path `"fakepem"` is non-empty and does not end
with `".pem"`, yet `validateFlags` accepts it (the source checks the bare
suffix `"pem"`), so the claim that every non-`.pem` path is rejected is false. -/
theorem validateFlags_dot_pem_counterexample :
    ("fakepem" ≠ "") ∧
    hasSuffix "fakepem" ".pem" = false ∧
    (validateFlags "u" "p" "db" "r" "fakepem" "kid" ["docs"]).isOk = true := by
  refine ⟨by decide, by decide, by decide⟩

/-- C2 (amended): for every non-empty verification key path that does not end
with the suffix `"pem"`, `validateFlags` returns an error, so configuration
validation fails at startup. -/
theorem validateFlags_rejects_non_pem_key (user pass dbAddr realm keyPath keyID : String)
    (args : List String) (h1 : keyPath ≠ "") (h2 : hasSuffix keyPath "pem" = false) :
    validateFlags user pass dbAddr realm keyPath keyID args =
      .error "key must be passed in as a pem file" := by
  simp [validateFlags, h1, h2]

/-- Witness for `validateFlags_rejects_non_pem_key` at the key path `"key.txt"`. -/
theorem validateFlags_rejects_non_pem_key_witness :
    ("key.txt" ≠ "") ∧ (hasSuffix "key.txt" "pem" = false) ∧
    validateFlags "u" "p" "db" "r" "key.txt" "kid" ["docs"] =
      .error "key must be passed in as a pem file" :=
  ⟨by decide, by decide,
    validateFlags_rejects_non_pem_key "u" "p" "db" "r" "key.txt" "kid" ["docs"]
      (by decide) (by decide)⟩

/-- C8: an argument list whose length is not one makes `validateFlags` fail,
and a single positional argument with otherwise valid inputs succeeds with
the returned options' path equal to that argument. -/
theorem validateFlags_positional_path (user pass dbAddr realm keyPath keyID : String)
    (args : List String) :
    (args.length ≠ 1 →
      (validateFlags user pass dbAddr realm keyPath keyID args).isOk = false) ∧
    (∀ p, args = [p] → (keyPath = "" ∨ hasSuffix keyPath "pem" = true) →
      ∃ opts, validateFlags user pass dbAddr realm keyPath keyID args = .ok opts ∧
        opts.path = p) := by
  constructor
  · intro hlen
    by_cases hk : keyPath = ""
    · simp [validateFlags, validateFlagsRest, hk, hlen, Except.isOk, Except.toBool]
    · by_cases hs : hasSuffix keyPath "pem"
      · simp [validateFlags, validateFlagsRest, hk, hs, hlen, Except.isOk, Except.toBool]
      · simp [validateFlags, hk, hs, Except.isOk, Except.toBool]
  · rintro p rfl hvalid
    by_cases hk : keyPath = ""
    · refine ⟨{ dbAddr := dbAddr, user := user, pass := pass, realm := realm,
                keyPath := "", keyID := "", path := p }, ?_, rfl⟩
      simp [validateFlags, validateFlagsRest, hk]
    · have hs : hasSuffix keyPath "pem" = true := by
        rcases hvalid with h | h
        · exact absurd h hk
        · exact h
      refine ⟨{ dbAddr := dbAddr, user := user, pass := pass, realm := realm,
                keyPath := keyPath, keyID := keyID, path := p }, ?_, rfl⟩
      simp [validateFlags, validateFlagsRest, hk, hs]

/-- Witness for `validateFlags_positional_path`: zero arguments are rejected,
and the single argument `"docs"` becomes the options' path. -/
theorem validateFlags_positional_path_witness :
    ((validateFlags "u" "p" "db" "r" "" "kid" []).isOk = false) ∧
    ∃ opts, validateFlags "u" "p" "db" "r" "" "kid" ["docs"] = .ok opts ∧
      opts.path = "docs" :=
  ⟨(validateFlags_positional_path "u" "p" "db" "r" "" "kid" []).1 (by decide),
    (validateFlags_positional_path "u" "p" "db" "r" "" "kid" ["docs"]).2
      "docs" rfl (Or.inl rfl)⟩

/-- C10: when the verification key path is empty, the options returned by
`validateFlags` carry an empty key identifier, whatever `keyID` was passed. -/
theorem validateFlags_keyID_requires_keyPath (user pass dbAddr realm keyID : String)
    (args : List String) (opts : Options)
    (h : validateFlags user pass dbAddr realm "" keyID args = .ok opts) :
    opts.keyID = "" := by
  by_cases hlen : args.length ≠ 1
  · simp [validateFlags, validateFlagsRest, hlen] at h
  · simp [validateFlags, validateFlagsRest, hlen] at h
    subst h
    rfl

/-- Witness for `validateFlags_keyID_requires_keyPath` with the key identifier
`"my-key"` supplied alongside an empty key path. -/
theorem validateFlags_keyID_requires_keyPath_witness :
    ∃ opts, validateFlags "u" "p" "db" "r" "" "my-key" ["docs"] = .ok opts ∧
      opts.keyID = "" := by
  refine ⟨{ dbAddr := "db", user := "u", pass := "p", realm := "r",
            keyPath := "", keyID := "", path := "docs" }, ?_, ?_⟩
  · rfl
  · exact validateFlags_keyID_requires_keyPath "u" "p" "db" "r" "my-key" ["docs"]
      _ (by rfl)

/-- C6: the collector's terminal handler returns `true` exactly when the
terminal error is absent. -/
theorem errHandler_true_iff_no_error (err : Option String) :
    errHandler err = true ↔ err = none := by
  cases err <;> simp [errHandler]

/-! ## Processor transport (`processorTransportFunc`, `files.go:122-132`) -/

/-- Modelled from the spec: the name of the processed-document channel
(`emitter.SubjectNameDocProcessed`, defined outside this file). -/
def SubjectNameDocProcessed : String := "DOCUMENTS.processed"

/-- Embedding of the `processorTransportFunc` closure (`files.go:122-132`).
JSON marshalling and the bus publish are explicit collaborators; the first
component of the result records the `(topic, payload)` publish calls issued. -/
def processorTransportFunc (marshal : DocumentTree → Except String (List Nat))
    (publish : String → List Nat → Except String Unit)
    (d : DocumentTree) : List (String × List Nat) × Except String Unit :=
  match marshal d with
  | .error e => ([], .error ("failed marshal of document: " ++ e))
  | .ok docTreeBytes =>
    match publish SubjectNameDocProcessed docTreeBytes with
    | .error e => ([(SubjectNameDocProcessed, docTreeBytes)], .error e)
    | .ok _ => ([(SubjectNameDocProcessed, docTreeBytes)], .ok ())

/-- C7: a document tree whose serialization fails makes the processor
transport return an error without publishing anything; a tree whose
serialization succeeds has its bytes published to the processed-document
topic, with the publish result (error included) handed back to the caller. -/
theorem processorTransportFunc_spec (marshal : DocumentTree → Except String (List Nat))
    (publish : String → List Nat → Except String Unit) (d : DocumentTree) :
    (∀ e, marshal d = .error e →
      processorTransportFunc marshal publish d =
        ([], .error ("failed marshal of document: " ++ e))) ∧
    (∀ bs, marshal d = .ok bs →
      (processorTransportFunc marshal publish d).1 = [(SubjectNameDocProcessed, bs)] ∧
      (processorTransportFunc marshal publish d).2 = publish SubjectNameDocProcessed bs) := by
  constructor
  · intro e he
    simp [processorTransportFunc, he]
  · intro bs hbs
    cases hp : publish SubjectNameDocProcessed bs with
    | error e => simp [processorTransportFunc, hbs, hp]
    | ok u => cases u; simp [processorTransportFunc, hbs, hp]

/-- Witness for `processorTransportFunc_spec`: a failing marshaller yields
the wrapped error and no publish call; a succeeding marshaller publishes the
serialized bytes and returns the publish outcome. -/
theorem processorTransportFunc_spec_witness :
    (processorTransportFunc (fun _ => .error "bad tree") (fun _ _ => .ok ())
        { root := { blob := [1], sourcePath := "a" } } =
      ([], .error ("failed marshal of document: " ++ "bad tree"))) ∧
    ((processorTransportFunc (fun _ => .ok [7, 8]) (fun _ _ => .error "bus down")
        { root := { blob := [1], sourcePath := "a" } }).1 =
      [(SubjectNameDocProcessed, [7, 8])] ∧
     (processorTransportFunc (fun _ => .ok [7, 8]) (fun _ _ => .error "bus down")
        { root := { blob := [1], sourcePath := "a" } }).2 =
      (fun (_ : String) (_ : List Nat) => (.error "bus down" : Except String Unit))
        SubjectNameDocProcessed [7, 8]) :=
  ⟨(processorTransportFunc_spec (fun _ => .error "bad tree") (fun _ _ => .ok ())
      { root := { blob := [1], sourcePath := "a" } }).1 "bad tree" rfl,
   (processorTransportFunc_spec (fun _ => .ok [7, 8]) (fun _ _ => .error "bus down")
      { root := { blob := [1], sourcePath := "a" } }).2 [7, 8] rfl⟩

/-! ## Collector emit and driver (`emit`, `files.go:154-161`) -/

/-- Outcome of one `emit` call: the closure either returns nil after a
successful publish, or logs the publish error and exits the process. -/
inductive EmitOutcome where
  | emitted
  | exited
deriving DecidableEq

/-- Embedding of the `emit` closure (`files.go:154-161`): publish the
document to the bus; a publish error is logged and the process exits
(`os.Exit(1)`), modelled as the `exited` outcome. -/
def emit (pub : Document → Except String Unit) (d : Document) : EmitOutcome :=
  match pub d with
  | .error _ => .exited
  | .ok _ => .emitted

/-- Modelled from the spec: the Collector Driver (`collector.Collect`,
outside this file) calls `emit` once per discovered document, synchronously,
and aborts enumeration immediately when `emit` aborts.  Returns the list of
documents offered to the bus and whether the run aborted on an emit failure. -/
def collectDriver (pub : Document → Except String Unit) :
    List Document → List Document × Bool
  | [] => ([], false)
  | d :: rest =>
    match emit pub d with
    | .exited => ([d], true)
    | .emitted =>
      let r := collectDriver pub rest
      (d :: r.1, r.2)

/-- C3: when the bus publish succeeds for every document before `d` and fails
on `d`, enumeration offers exactly the earlier documents plus `d` to the bus
(N documents when `d` is the N-th) and aborts without reaching any later
document. -/
theorem collect_aborts_on_publish_error (pub : Document → Except String Unit)
    (pre post : List Document) (d : Document)
    (hpre : ∀ x ∈ pre, (pub x).isOk = true) (hd : (pub d).isOk = false) :
    collectDriver pub (pre ++ d :: post) = (pre ++ [d], true) := by
  induction pre with
  | nil =>
    cases hp : pub d with
    | error e => simp [collectDriver, emit, hp]
    | ok u => rw [hp] at hd; simp [Except.isOk, Except.toBool] at hd
  | cons x xs ih =>
    have hx : (pub x).isOk = true := hpre x (List.mem_cons_self x xs)
    cases hp : pub x with
    | error e => rw [hp] at hx; simp [Except.isOk, Except.toBool] at hx
    | ok u =>
      have ih' := ih (fun y hy => hpre y (List.mem_cons_of_mem x hy))
      simp [collectDriver, emit, hp, ih']

/-- Witness for `collect_aborts_on_publish_error`: with a bus that rejects
the document at path `"b"`, a three-document enumeration offers the first
two documents and aborts before the third. -/
theorem collect_aborts_on_publish_error_witness :
    (∀ x ∈ [Document.mk [1] "a"],
      ((fun (d : Document) =>
        if d.sourcePath = "b" then (.error "bus down" : Except String Unit)
        else .ok ()) x).isOk = true) ∧
    ((fun (d : Document) =>
        if d.sourcePath = "b" then (.error "bus down" : Except String Unit)
        else .ok ()) (Document.mk [2] "b")).isOk = false ∧
    collectDriver
      (fun (d : Document) =>
        if d.sourcePath = "b" then (.error "bus down" : Except String Unit)
        else .ok ())
      ([Document.mk [1] "a"] ++ Document.mk [2] "b" :: [Document.mk [3] "c"]) =
      ([Document.mk [1] "a"] ++ [Document.mk [2] "b"], true) :=
  ⟨by decide, by decide,
    collect_aborts_on_publish_error
      (fun (d : Document) =>
        if d.sourcePath = "b" then (.error "bus down" : Except String Unit)
        else .ok ())
      [Document.mk [1] "a"] [Document.mk [3] "c"] (Document.mk [2] "b")
      (by decide) (by decide)⟩

/-! ## Graph assembler (`getAssembler` and `createIndices`,
`files.go:250-302`) -/

/-- Modelled from the spec: `assembler.Graph.AppendGraph` (outside this file)
concatenates the argument fragment's node and edge collections onto the
receiver's. -/
def Graph.AppendGraph (g add : Graph) : Graph :=
  { Nodes := g.Nodes ++ add.Nodes, Edges := g.Edges ++ add.Edges }

/-- Embedding of the merge loop of the store closure (`files.go:268-274`):
start from the empty combined graph and append every fragment in order. -/
def mergeFragments (gs : List Graph) : Graph :=
  gs.foldl Graph.AppendGraph { Nodes := [], Edges := [] }

/-- Embedding of the store closure returned by `getAssembler`
(`files.go:267-280`): merge the fragments and issue a single `StoreGraph`
call on the database client; the first component of the result records the
store calls issued, the second the returned error. -/
def assemblerStoreFunc (storeGraph : Graph → Except String Unit)
    (gs : List Graph) : List Graph × Except String Unit :=
  let combined := mergeFragments gs
  match storeGraph combined with
  | .error e => ([combined], .error e)
  | .ok _ => ([combined], .ok ())

/-- The index table of `createIndices` (`files.go:284-290`), in source
order; Go map iteration order is arbitrary, so properties below compare the
created entries as a set. -/
def indices : List (String × List String) :=
  [("Artifact", ["digest", "name"]),
   ("Package", ["purl", "name"]),
   ("Metadata", ["id"]),
   ("Attestation", ["digest"]),
   ("Vulnerability", ["id"])]

/-- The `(label, attribute)` pairs visited by the nested loops of
`createIndices` (`files.go:292-299`). -/
def indexPairs : List (String × String) :=
  indices.flatMap (fun la => la.2.map (fun a => (la.1, a)))

/-- One pass of the `createIndices` loop over the flattened pairs: call
`assembler.CreateIndexOn` (the collaborator `client`) for each pair and stop
at the first failure.  Returns the calls made and the overall outcome. -/
def createIndicesOn (client : String → String → Except String Unit) :
    List (String × String) → List (String × String) × Except String Unit
  | [] => ([], .ok ())
  | (label, attr) :: rest =>
    match client label attr with
    | .error e => ([(label, attr)], .error e)
    | .ok _ =>
      let r := createIndicesOn client rest
      ((label, attr) :: r.1, r.2)

/-- Embedding of `createIndices` (`files.go:283-302`). -/
def createIndices (client : String → String → Except String Unit) :
    List (String × String) × Except String Unit :=
  createIndicesOn client indexPairs

/-- Embedding of `getAssembler` (`files.go:250-281`): client construction
(`graphdb.NewGraphClient`, a collaborator whose outcome is `newClient`) and
index creation must succeed before the store closure is returned. -/
def getAssembler (newClient : Except String Unit)
    (client : String → String → Except String Unit)
    (storeGraph : Graph → Except String Unit) :
    Except String (List Graph → List Graph × Except String Unit) :=
  match newClient with
  | .error e => .error e
  | .ok _ =>
    match (createIndices client).2 with
    | .error e => .error e
    | .ok _ => .ok (assemblerStoreFunc storeGraph)

/-! ## Theorems: assembler -/

/-- Folding `AppendGraph` concatenates node collections in order. -/
theorem foldl_appendGraph_nodes (gs : List Graph) (acc : Graph) :
    (gs.foldl Graph.AppendGraph acc).Nodes =
      acc.Nodes ++ (gs.map Graph.Nodes).flatten := by
  induction gs generalizing acc with
  | nil => simp
  | cons g gs ih => simp [Graph.AppendGraph, ih]

/-- Folding `AppendGraph` concatenates edge collections in order. -/
theorem foldl_appendGraph_edges (gs : List Graph) (acc : Graph) :
    (gs.foldl Graph.AppendGraph acc).Edges =
      acc.Edges ++ (gs.map Graph.Edges).flatten := by
  induction gs generalizing acc with
  | nil => simp
  | cons g gs ih => simp [Graph.AppendGraph, ih]

/-- The merged graph is exactly the in-order concatenation of the fragments'
node and edge collections. -/
theorem mergeFragments_eq (gs : List Graph) :
    mergeFragments gs =
      { Nodes := (gs.map Graph.Nodes).flatten,
        Edges := (gs.map Graph.Edges).flatten } := by
  have h1 := foldl_appendGraph_nodes gs { Nodes := [], Edges := [] }
  have h2 := foldl_appendGraph_edges gs { Nodes := [], Edges := [] }
  simp at h1 h2
  calc mergeFragments gs
      = { Nodes := (mergeFragments gs).Nodes, Edges := (mergeFragments gs).Edges } := rfl
    _ = { Nodes := (gs.map Graph.Nodes).flatten,
          Edges := (gs.map Graph.Edges).flatten } := by
        rw [show (mergeFragments gs).Nodes = (gs.map Graph.Nodes).flatten from h1,
            show (mergeFragments gs).Edges = (gs.map Graph.Edges).flatten from h2]

/-- The store closure issues exactly one store call, on the merged graph. -/
theorem assemblerStoreFunc_fst (storeGraph : Graph → Except String Unit)
    (gs : List Graph) :
    (assemblerStoreFunc storeGraph gs).1 = [mergeFragments gs] := by
  unfold assemblerStoreFunc
  simp only []
  cases hs : storeGraph (mergeFragments gs) with
  | error e => rfl
  | ok u => rfl

/-- C1: for every fragment sequence, the store closure builds exactly one
merged graph — nodes and edges are the concatenations of the fragments'
nodes and edges in input order — and issues exactly one store call to the
database client, with that merged graph as its argument. -/
theorem store_merges_in_order_and_stores_once
    (storeGraph : Graph → Except String Unit) (gs : List Graph) :
    (assemblerStoreFunc storeGraph gs).1 =
      [{ Nodes := (gs.map Graph.Nodes).flatten,
         Edges := (gs.map Graph.Edges).flatten }] := by
  rw [assemblerStoreFunc_fst, mergeFragments_eq]

/-- Permuting the outer list of lists permutes the flattened list. -/
theorem perm_flatten {α : Type} {l₁ l₂ : List (List α)} (h : l₁.Perm l₂) :
    l₁.flatten.Perm l₂.flatten := by
  induction h with
  | nil => exact List.Perm.refl _
  | cons x _ ih => simpa using ih.append_left x
  | swap x y l =>
    simp only [List.flatten_cons, ← List.append_assoc]
    exact List.perm_append_comm.append_right _
  | trans _ _ ih₁ ih₂ => exact ih₁.trans ih₂

/-- C4: two orderings of the same collection of fragments merge to graphs
with the same node set and the same edge set. -/
theorem store_merge_order_insensitive (gs₁ gs₂ : List Graph)
    (h : gs₁.Perm gs₂) :
    (mergeFragments gs₁).Nodes.toFinset = (mergeFragments gs₂).Nodes.toFinset ∧
    (mergeFragments gs₁).Edges.toFinset = (mergeFragments gs₂).Edges.toFinset := by
  rw [mergeFragments_eq gs₁, mergeFragments_eq gs₂]
  constructor
  · exact List.toFinset_eq_of_perm _ _ (perm_flatten (h.map Graph.Nodes))
  · exact List.toFinset_eq_of_perm _ _ (perm_flatten (h.map Graph.Edges))

/-- Witness for `store_merge_order_insensitive`: swapping two concrete
fragments leaves the merged node and edge sets unchanged. -/
theorem store_merge_order_insensitive_witness :
    ([Graph.mk [GuacNode.mk "Artifact" [("digest", "d1")]] [],
      Graph.mk [GuacNode.mk "Package" [("purl", "p1")]]
        [GuacEdge.mk "DependsOn" []]].Perm
     [Graph.mk [GuacNode.mk "Package" [("purl", "p1")]]
        [GuacEdge.mk "DependsOn" []],
      Graph.mk [GuacNode.mk "Artifact" [("digest", "d1")]] []]) ∧
    ((mergeFragments
        [Graph.mk [GuacNode.mk "Artifact" [("digest", "d1")]] [],
         Graph.mk [GuacNode.mk "Package" [("purl", "p1")]]
           [GuacEdge.mk "DependsOn" []]]).Nodes.toFinset =
      (mergeFragments
        [Graph.mk [GuacNode.mk "Package" [("purl", "p1")]]
           [GuacEdge.mk "DependsOn" []],
         Graph.mk [GuacNode.mk "Artifact" [("digest", "d1")]] []]).Nodes.toFinset ∧
     (mergeFragments
        [Graph.mk [GuacNode.mk "Artifact" [("digest", "d1")]] [],
         Graph.mk [GuacNode.mk "Package" [("purl", "p1")]]
           [GuacEdge.mk "DependsOn" []]]).Edges.toFinset =
      (mergeFragments
        [Graph.mk [GuacNode.mk "Package" [("purl", "p1")]]
           [GuacEdge.mk "DependsOn" []],
         Graph.mk [GuacNode.mk "Artifact" [("digest", "d1")]] []]).Edges.toFinset) :=
  ⟨by decide,
    store_merge_order_insensitive _ _ (by decide)⟩

/-- The index entries the design requires: Artifact(digest,name),
Package(purl,name), Metadata(id), Attestation(digest), Vulnerability(id). -/
def requiredIndexPairs : List (String × String) :=
  [("Artifact", "digest"), ("Artifact", "name"),
   ("Package", "purl"), ("Package", "name"),
   ("Metadata", "id"),
   ("Attestation", "digest"),
   ("Vulnerability", "id")]

/-- When every index creation succeeds, the loop performs every call and
reports success. -/
theorem createIndicesOn_all_ok (client : String → String → Except String Unit)
    (l : List (String × String)) (h : ∀ p ∈ l, (client p.1 p.2).isOk = true) :
    createIndicesOn client l = (l, .ok ()) := by
  induction l with
  | nil => rfl
  | cons p rest ih =>
    obtain ⟨label, attr⟩ := p
    have hp := h _ (List.mem_cons_self _ _)
    cases hc : client label attr with
    | error e => rw [hc] at hp; simp [Except.isOk, Except.toBool] at hp
    | ok u =>
      simp [createIndicesOn, hc,
        ih (fun q hq => h q (List.mem_cons_of_mem _ hq))]

/-- When some index creation in the list fails, the loop reports a failure. -/
theorem createIndicesOn_err (client : String → String → Except String Unit)
    (l : List (String × String)) (h : ∃ p ∈ l, (client p.1 p.2).isOk = false) :
    (createIndicesOn client l).2.isOk = false := by
  induction l with
  | nil => simp at h
  | cons p rest ih =>
    obtain ⟨label, attr⟩ := p
    cases hc : client label attr with
    | error e => simp [createIndicesOn, hc, Except.isOk, Except.toBool]
    | ok u =>
      rcases h with ⟨q, hq, hqf⟩
      rcases List.mem_cons.mp hq with rfl | hq'
      · rw [hc] at hqf; simp [Except.isOk, Except.toBool] at hqf
      · have hrest := ih ⟨q, hq', hqf⟩
        simp [createIndicesOn, hc]
        exact hrest

/-- C5: when every index creation succeeds, `getAssembler` creates exactly
the required entries — Artifact(digest,name), Package(purl,name),
Metadata(id), Attestation(digest), Vulnerability(id) — and returns a store
function; when any single index creation fails, `getAssembler` returns an
error instead. -/
theorem getAssembler_index_bootstrap (client : String → String → Except String Unit)
    (storeGraph : Graph → Except String Unit) :
    ((∀ p ∈ indexPairs, (client p.1 p.2).isOk = true) →
      (createIndices client).1 = requiredIndexPairs ∧
      (getAssembler (.ok ()) client storeGraph).isOk = true) ∧
    ((∃ p ∈ indexPairs, (client p.1 p.2).isOk = false) →
      (getAssembler (.ok ()) client storeGraph).isOk = false) := by
  constructor
  · intro h
    have hall := createIndicesOn_all_ok client indexPairs h
    have hpairs : indexPairs = requiredIndexPairs := by decide
    constructor
    · rw [createIndices, hall, hpairs]
    · simp [getAssembler, createIndices, hall, Except.isOk, Except.toBool]
  · intro h
    have herr := createIndicesOn_err client indexPairs h
    cases hc : (createIndicesOn client indexPairs).2 with
    | error e => simp [getAssembler, createIndices, hc, Except.isOk, Except.toBool]
    | ok u => rw [hc] at herr; simp [Except.isOk, Except.toBool] at herr

/-- Witness for `getAssembler_index_bootstrap`: an always-succeeding client
yields the required entries and a store function; a client that rejects
`Package.purl` makes assembler construction fail. -/
theorem getAssembler_index_bootstrap_witness :
    ((createIndices (fun _ _ => .ok ())).1 = requiredIndexPairs ∧
     (getAssembler (.ok ()) (fun _ _ => .ok ()) (fun _ => .ok ())).isOk = true) ∧
    (getAssembler (.ok ())
      (fun label attr =>
        if label = "Package" ∧ attr = "purl" then .error "index failed" else .ok ())
      (fun _ => .ok ())).isOk = false :=
  ⟨(getAssembler_index_bootstrap (fun _ _ => .ok ()) (fun _ => .ok ())).1
      (by decide),
   (getAssembler_index_bootstrap
      (fun label attr =>
        if label = "Package" ∧ attr = "purl" then .error "index failed" else .ok ())
      (fun _ => .ok ())).2
      ⟨("Package", "purl"), by decide, by decide⟩⟩

/-! ## Join barrier (`filesCmd.Run`, `files.go:174-197`)

The run function adds 2 to a WaitGroup, launches the processor and ingestor
loops as goroutines (each decrementing the WaitGroup when it returns), runs
`collector.Collect` on the main thread, and then blocks in `wg.Wait()`.
Overall pipeline completion is `wg.Wait()` returning, which by program order
happens after `collector.Collect` has returned and, by WaitGroup semantics,
only once the counter is back to zero.  The concurrency is embedded as a
step relation over an explicit state, quantifying over every interleaving. -/

/-- Join-barrier state: which tasks have returned, the WaitGroup counter,
and whether `wg.Wait()` has returned (overall completion). -/
structure PipelineState where
  procDone : Bool
  ingDone : Bool
  collectDone : Bool
  wgCount : Nat
  completed : Bool
deriving DecidableEq

/-- State after the two `wg.Add(1)` calls, before any task returns. -/
def initPipeline : PipelineState :=
  { procDone := false, ingDone := false, collectDone := false,
    wgCount := 2, completed := false }

/-- Scheduler events: a worker loop returning (running its deferred
`wg.Done()`), the collector returning on the main thread, and `wg.Wait()`
returning on the main thread. -/
inductive PEvent where
  | procFinish
  | ingFinish
  | collectFinish
  | complete
deriving DecidableEq

/-- One scheduler step; `none` when the event cannot fire in this state.
`complete` (the return of `wg.Wait()`) requires the collector to have
returned — `wg.Wait()` is only reached after `collector.Collect` in program
order — and the WaitGroup counter to be zero. -/
def pstep (s : PipelineState) : PEvent → Option PipelineState
  | .procFinish =>
    if s.procDone then none
    else some { s with procDone := true, wgCount := s.wgCount - 1 }
  | .ingFinish =>
    if s.ingDone then none
    else some { s with ingDone := true, wgCount := s.wgCount - 1 }
  | .collectFinish =>
    if s.collectDone then none
    else some { s with collectDone := true }
  | .complete =>
    if s.collectDone = true ∧ s.wgCount = 0 ∧ s.completed = false then
      some { s with completed := true }
    else none

/-- Run a schedule: apply the events in order, failing on an impossible one. -/
def prun (s : PipelineState) : List PEvent → Option PipelineState
  | [] => some s
  | e :: es =>
    match pstep s e with
    | none => none
    | some s' => prun s' es

/-- Invariant: the WaitGroup counter balances the workers still running, and
completion implies every task has returned. -/
def pinv (s : PipelineState) : Prop :=
  s.wgCount + (if s.procDone then 1 else 0) + (if s.ingDone then 1 else 0) = 2 ∧
  (s.completed = true →
    s.procDone = true ∧ s.ingDone = true ∧ s.collectDone = true)

/-- Every scheduler step preserves the join-barrier invariant. -/
theorem pstep_preserves_pinv {s s' : PipelineState} (e : PEvent)
    (hinv : pinv s) (h : pstep s e = some s') : pinv s' := by
  obtain ⟨p, i, c, w, comp⟩ := s
  obtain ⟨hwg, hdone⟩ := hinv
  cases e with
  | procFinish =>
    cases p with
    | true => simp [pstep] at h
    | false =>
      simp [pstep] at h
      subst h
      constructor
      · cases i <;> simp at hwg ⊢ <;> omega
      · intro hc
        exact absurd (hdone hc).1 Bool.false_ne_true
  | ingFinish =>
    cases i with
    | true => simp [pstep] at h
    | false =>
      simp [pstep] at h
      subst h
      constructor
      · cases p <;> simp at hwg ⊢ <;> omega
      · intro hc
        exact absurd (hdone hc).2.1 Bool.false_ne_true
  | collectFinish =>
    cases c with
    | true => simp [pstep] at h
    | false =>
      simp [pstep] at h
      subst h
      constructor
      · simpa using hwg
      · intro hc
        exact ⟨(hdone hc).1, (hdone hc).2.1, rfl⟩
  | complete =>
    by_cases hg : c = true ∧ w = 0 ∧ comp = false
    · obtain ⟨hc1, hw0, hcomp⟩ := hg
      subst hc1
      subst hw0
      subst hcomp
      simp [pstep] at h
      subst h
      cases p with
      | false => cases i <;> simp at hwg
      | true =>
        cases i with
        | false => simp at hwg
        | true => exact ⟨by simp, fun _ => ⟨rfl, rfl, rfl⟩⟩
    · have hnone : pstep ⟨p, i, c, w, comp⟩ PEvent.complete = none := by
        simp only [pstep, if_neg hg]
      rw [hnone] at h
      exact Option.noConfusion h

/-- Running any schedule from an invariant state lands in an invariant state. -/
theorem prun_preserves_pinv (events : List PEvent) :
    ∀ s s' : PipelineState, pinv s → prun s events = some s' → pinv s' := by
  induction events with
  | nil =>
    intro s s' hinv h
    simp [prun] at h
    subst h
    exact hinv
  | cons e es ih =>
    intro s s' hinv h
    cases hs : pstep s e with
    | none => rw [prun, hs] at h; cases h
    | some s₁ =>
      rw [prun, hs] at h
      exact ih s₁ s' (pstep_preserves_pinv e hinv hs) h

/-- C9: in every interleaving of the three tasks, overall completion (the
return of `wg.Wait()`) occurs only once the collector driver has returned
and both the processor loop and the ingestor loop have returned. -/
theorem pipeline_completion_requires_all_tasks (events : List PEvent)
    (s : PipelineState) (h : prun initPipeline events = some s)
    (hc : s.completed = true) :
    s.procDone = true ∧ s.ingDone = true ∧ s.collectDone = true := by
  have hinv0 : pinv initPipeline := by
    constructor
    · rfl
    · intro hfalse
      simp [initPipeline] at hfalse
  exact (prun_preserves_pinv events initPipeline s hinv0 h).2 hc

/-- Witness for `pipeline_completion_requires_all_tasks`: the schedule where
the collector finishes first still completes only after both worker loops
have returned. -/
theorem pipeline_completion_requires_all_tasks_witness :
    (prun initPipeline
        [PEvent.collectFinish, PEvent.procFinish, PEvent.ingFinish,
         PEvent.complete] =
      some { procDone := true, ingDone := true, collectDone := true,
             wgCount := 0, completed := true }) ∧
    (PipelineState.mk true true true 0 true).procDone = true ∧
    (PipelineState.mk true true true 0 true).ingDone = true ∧
    (PipelineState.mk true true true 0 true).collectDone = true :=
  ⟨by decide,
    pipeline_completion_requires_all_tasks
      [PEvent.collectFinish, PEvent.procFinish, PEvent.ingFinish,
       PEvent.complete]
      (PipelineState.mk true true true 0 true) (by decide) (by decide)⟩

end GuacFiles
